import Mathlib

/-!
Verification of the asynchronous hourly Coup game-phase scheduler and
turn-resolution subsystem of this repository.

The repository's web-facing schemas (zod schemas in
`game_server/frontend/types`, SQL DDL in `game_server/backend/migrations`,
and the `GAME_PHASES` / `CARD_TYPES` constants) are translated directly
from the source.  The scheduler, Action Intake and Resolution Engine
themselves are declared in the backend's service table
(`ActionResolutionService`, `PhaseTransitionService`, `GameplayService`)
but their implementation files are not part of the available sources, so
those operations are modelled from the specification (sections 4.1-4.5),
and each such definition is marked `Modelled from the spec:` in its doc
comment.
-/

namespace Coup

/-! ## Enumerations from the source schemas -/

/-- Action types of the game, from the Game Rules Reference table:
income, foreign aid, coup, tax, assassinate, steal, exchange. -/
inductive ActionType where
  | income
  | foreignAid
  | coup
  | tax
  | assassinate
  | steal
  | exchange
deriving DecidableEq, Repr, Fintype

/-- Card (role) types, from the `CARD_TYPES` constant in `lib/constants.ts`:
`['duke', 'assassin', 'captain', 'ambassador', 'contessa']`. -/
inductive CardType where
  | duke
  | assassin
  | captain
  | ambassador
  | contessa
deriving DecidableEq, Repr, Fintype

/-- Game phases, from `GamePhaseSchema` in the frontend session schema:
`z.enum(['phase1_actions','lockout1','phase2_reactions','lockout2',
'broadcast','ending','waiting'])`.  Note the enum has SEVEN values:
the six in-game phases plus the lobby value `waiting`. -/
inductive GamePhase where
  | phase1Actions
  | lockout1
  | phase2Reactions
  | lockout2
  | broadcast
  | ending
  | waiting
deriving DecidableEq, Repr

/-- Session statuses, from `SessionStatusSchema`:
`z.enum(['waiting', 'active', 'paused', 'ended'])`. -/
inductive SessionStatus where
  | waiting
  | active
  | paused
  | ended
deriving DecidableEq, Repr

/-- The six in-game phases, from the `GAME_PHASES` constant in
`lib/constants.ts` (which, unlike `GamePhaseSchema`, does not list
`waiting`). -/
def gamePhasesSix : List GamePhase :=
  [.phase1Actions, .lockout1, .phase2Reactions, .lockout2, .broadcast, .ending]

/-- Whether an optional current phase is one of the six in-game phases. -/
def isInGamePhase : Option GamePhase → Bool
  | some p => p ∈ gamePhasesSix
  | none => false

/-! ## Session record from `SessionSchema` -/

/-- Session record, following `SessionSchema` in the frontend types:
`session_id`, `session_name`, `status`, nullable/optional
`current_phase`, `player_count` (min 0), `max_players` (min 2, max 6). -/
structure Session where
  sessionId : String
  sessionName : String
  status : SessionStatus
  currentPhase : Option GamePhase
  playerCount : Int
  maxPlayers : Int
deriving DecidableEq, Repr

/-- Structural validation performed by `SessionSchema`: the enum fields are
typed, `player_count` has `.min(0)` and `max_players` has `.min(2).max(6)`.
No constraint ties `status` to `current_phase`. -/
def sessionSchemaValid (s : Session) : Bool :=
  0 ≤ s.playerCount && 2 ≤ s.maxPlayers && s.maxPlayers ≤ 6

/-! ## Phase transition scheduler (modelled from the spec) -/

/-- Modelled from the spec: the Phase Transition Scheduler's state machine
(section 4.2) over a session's `(status, current_phase)` pair.  The
implementation (`PhaseTransitionService`) is not among the available
sources.  A session starts in the `waiting` lobby, the scheduler starts it
into `phase1_actions`, drives it around
`action -> lockout_action -> reaction -> lockout_reaction -> broadcast ->
(action | ending)`, and marks the session `ended` after the ending phase. -/
inductive SchedStep : SessionStatus × Option GamePhase → SessionStatus × Option GamePhase → Prop where
  | startGame (p : Option GamePhase) :
      SchedStep (.waiting, p) (.active, some .phase1Actions)
  | lockAction :
      SchedStep (.active, some .phase1Actions) (.active, some .lockout1)
  | openReaction :
      SchedStep (.active, some .lockout1) (.active, some .phase2Reactions)
  | lockReaction :
      SchedStep (.active, some .phase2Reactions) (.active, some .lockout2)
  | toBroadcast :
      SchedStep (.active, some .lockout2) (.active, some .broadcast)
  | nextTurn :
      SchedStep (.active, some .broadcast) (.active, some .phase1Actions)
  | toEnding :
      SchedStep (.active, some .broadcast) (.active, some .ending)
  | finish :
      SchedStep (.active, some .ending) (.ended, some .ending)

/-- Scheduler states reachable from a freshly created session
(lobby status `waiting`, no current phase). -/
def SchedReachable (s : SessionStatus × Option GamePhase) : Prop :=
  Relation.ReflTransGen SchedStep (SessionStatus.waiting, none) s

/-! ## Phase clock (modelled from the spec) -/

/-- Configuration error taxonomy entry for the phase clock (section 7). -/
inductive ConfigError where
  | invalidConfiguration
deriving DecidableEq, Repr

/-- A started phase's clock record: the absolute deadline. -/
structure PhaseClock where
  deadline : Int
deriving DecidableEq, Repr

/-- Modelled from the spec: `start_phase` (section 4.1) records the phase
deadline `now + configured duration`; a zero or negative configured
duration fails with `InvalidConfiguration`.  The Phase Clock
implementation is not among the available sources. -/
def startPhase (now duration : Int) : Except ConfigError PhaseClock :=
  if duration ≤ 0 then .error .invalidConfiguration
  else .ok ⟨now + duration⟩

/-- Modelled from the spec: `time_remaining` (section 4.1) returns the
remaining duration, non-negative, and zero once expired; it is a total
function (expiry is expressed as zero, not as an error). -/
def timeRemaining (clock : PhaseClock) (now : Int) : Int :=
  max (clock.deadline - now) 0

/-! ## Session configuration surface -/

/-- Validation performed by `CreateSessionRequestSchema`:
`session_name: z.string().min(1)`, `max_players: z.number().min(2).max(6)`. -/
def createSessionRequestValid (sessionName : String) (maxPlayers : Int) : Bool :=
  1 ≤ sessionName.length && 2 ≤ maxPlayers && maxPlayers ≤ 6

/-- The six per-phase durations of a session, matching the
`game_session_table_orm` columns after the rename migration:
`phase1_action_duration`, `phase2_lockout_duration`,
`phase3_reaction_duration`, `phase4_lockout_duration`,
`phase5_broadcast_duration`, `phase6_ending_duration`. -/
structure PhaseDurations where
  actionDuration : Int
  lockoutActionDuration : Int
  reactionDuration : Int
  lockoutReactionDuration : Int
  broadcastDuration : Int
  endingDuration : Int
deriving DecidableEq, Repr

/-- Modelled from the spec: default per-phase durations in minutes.  The
first five (50/10/20/10/1) are documented in the action-selection prompt
("Phase 1 (50 min) ... Lockout 1 (10 min) ... Phase 2 (20 min) ...
Lockout 2 (10 min) ... Broadcast (1 min)"); the ending default 5 is the
`phase6_ending_duration INTEGER DEFAULT 5` column added by the
session-restart migration.  The table's other DEFAULT clauses are not in
the available DDL. -/
def defaultPhaseDurations : PhaseDurations :=
  { actionDuration := 50
    lockoutActionDuration := 10
    reactionDuration := 20
    lockoutReactionDuration := 10
    broadcastDuration := 1
    endingDuration := 5 }

/-- Modelled from the spec: the configuration surface consumes six phase
durations that are positive integers; a non-positive duration is an
`InvalidConfiguration` error at session creation (section 7). -/
def validateDurations (d : PhaseDurations) : Except ConfigError Unit :=
  if 0 < d.actionDuration ∧ 0 < d.lockoutActionDuration ∧ 0 < d.reactionDuration ∧
      0 < d.lockoutReactionDuration ∧ 0 < d.broadcastDuration ∧ 0 < d.endingDuration then
    .ok ()
  else .error .invalidConfiguration

/-! ## Player game-state row defaults from the DDL -/

/-- A row of `player_game_state_table_orm` (three-tier architecture
migration), with the columns relevant to game logic:
`card_types card_type_enum[]`, `coins INTEGER`, `debt INTEGER`,
`to_be_initiated to_be_initiated_enum[]`. -/
structure PlayerGameStateRow where
  userId : String
  sessionId : Option String
  cardTypes : List CardType
  coins : Int
  debt : Int
  toBeInitiated : List ActionType
deriving DecidableEq, Repr

/-- A freshly inserted `player_game_state_table_orm` row with only the
key columns supplied, taking every other column's DDL DEFAULT:
`card_types ... DEFAULT '\x7b\x7d'`, `coins INTEGER DEFAULT 2`,
`debt INTEGER DEFAULT 0`, `to_be_initiated ... DEFAULT '\x7b\x7d'`. -/
def defaultPlayerGameStateRow (userId : String) (sessionId : Option String) :
    PlayerGameStateRow :=
  { userId := userId
    sessionId := sessionId
    cardTypes := []
    coins := 2
    debt := 0
    toBeInitiated := [] }

/-! ## Game state and Action Intake (modelled from the spec) -/

/-- A declared pending action (data model section 3): actor-relative
record of action type, optional target, claimed role for challengeable
actions, and the upgraded flag.  The hidden upgrade detail lives in
`to_be_initiated_upgrade_details_table_orm` and is not needed here. -/
structure PendingAction where
  actionType : ActionType
  target : Option Nat
  claimedRole : Option CardType
  upgraded : Bool
deriving DecidableEq, Repr

/-- Player-input validation error taxonomy of Action Intake (section 7). -/
inductive IntakeError where
  | invalidAction
  | insufficientCoins
  | invalidTarget
  | forcedCoupRequired
deriving DecidableEq, Repr

/-- Modelled from the spec: a player's in-session game state
(`PlayerGameState`, section 3, backed by `player_game_state_table_orm`):
coins, debt, held cards, alive flag, and the declared pending action list
(the DDL stores `to_be_initiated` as an array; the intake contract is that
it never holds more than one entry). -/
structure PlayerState where
  userId : Nat
  coins : Nat
  debt : Nat
  cards : List CardType
  isAlive : Bool
  pending : List PendingAction
deriving DecidableEq, Repr

/-- Modelled from the spec: the per-session state the Resolution Engine
operates on; `players` is kept in ascending join order, which is the
fixed deterministic processing order (section 4.5). -/
structure GameState where
  players : List PlayerState
deriving DecidableEq, Repr

/-- The first player record with the given user id. -/
def findPlayer (st : GameState) (uid : Nat) : Option PlayerState :=
  st.players.find? fun p => p.userId == uid

/-- Apply `f` to the player(s) with the given user id. -/
def updatePlayer (st : GameState) (uid : Nat) (f : PlayerState → PlayerState) :
    GameState :=
  ⟨st.players.map fun p => if p.userId == uid then f p else p⟩

/-- The pending-action list of a player (empty when absent). -/
def pendingOf (st : GameState) (uid : Nat) : List PendingAction :=
  match findPlayer st uid with
  | some p => p.pending
  | none => []

/-- A player's coin count (zero when absent). -/
def coinsOf (st : GameState) (uid : Nat) : Nat :=
  match findPlayer st uid with
  | some p => p.coins
  | none => 0

/-- A player's card count (zero when absent). -/
def cardCountOf (st : GameState) (uid : Nat) : Nat :=
  match findPlayer st uid with
  | some p => p.cards.length
  | none => 0

/-- Whether a player is alive (false when absent). -/
def aliveIn (st : GameState) (uid : Nat) : Bool :=
  match findPlayer st uid with
  | some p => p.isAlive
  | none => false

/-- Up-front coin cost paid at declaration time (Game Rules Reference:
Coup costs 7, Assassinate costs 3; the documented model pays these at
declaration, section 4.3 and scenario D). -/
def actionCost : ActionType → Nat
  | .coup => 7
  | .assassinate => 3
  | _ => 0

/-- Whether the action type requires a target (Game Rules Reference:
Coup, Assassinate and Steal require a target). -/
def isTargeted : ActionType → Bool
  | .coup => true
  | .assassinate => true
  | .steal => true
  | _ => false

/-- Modelled from the spec: target validation of Action Intake (section
4.3): a target is supplied, for Coup it is not the actor, and it exists
and is alive. -/
def targetOk (st : GameState) (uid : Nat) (req : PendingAction) : Bool :=
  match req.target with
  | none => false
  | some t =>
    if req.actionType = .coup ∧ t = uid then false
    else
      match findPlayer st t with
      | none => false
      | some tp => tp.isAlive

/-- Modelled from the spec: Action Intake success updates the actor's
record: the pending list is overwritten with the single new declaration
and the up-front cost is deducted (section 4.3). -/
def applyDeclaration (st : GameState) (uid : Nat) (req : PendingAction) : GameState :=
  updatePlayer st uid fun q =>
    { q with pending := [req], coins := q.coins - actionCost req.actionType }

/-- Modelled from the spec: Action Intake (section 4.3, implemented by the
unavailable `GameplayService`).  Validates that the actor exists and is
alive and that the session is in the action phase (else `InvalidAction`);
enforces the forced-coup rule (10+ coins admits only Coup, else
`ForcedCoupRequired`); enforces coin costs (`InsufficientCoins`) and, for
targeted actions, that a target is given, exists and is alive — and for
Coup is not the actor (`InvalidTarget`).  On success it overwrites the
actor's pending list with the single new declaration and deducts the
up-front cost. -/
def actionIntake (st : GameState) (phase : GamePhase) (uid : Nat)
    (req : PendingAction) : Except IntakeError GameState :=
  match findPlayer st uid with
  | none => .error .invalidAction
  | some p =>
    if !p.isAlive then .error .invalidAction
    else if phase ≠ GamePhase.phase1Actions then .error .invalidAction
    else if 10 ≤ p.coins ∧ req.actionType ≠ .coup then .error .forcedCoupRequired
    else if p.coins < actionCost req.actionType then .error .insufficientCoins
    else if isTargeted req.actionType && !targetOk st uid req then .error .invalidTarget
    else .ok (applyDeclaration st uid req)

/-- A targeted request has a good target in `st` for actor `uid`: a target
is supplied, it exists and is alive, and for Coup it is not the actor. -/
def goodTarget (st : GameState) (uid : Nat) (req : PendingAction) : Prop :=
  ∃ t, req.target = some t ∧ ¬(req.actionType = .coup ∧ t = uid) ∧
    ∃ tp, findPlayer st t = some tp ∧ tp.isAlive = true

/-! ## Reactions and the Resolution Engine (modelled from the spec) -/

/-- Reaction types, from the data model (section 3): challenge, block,
pass. -/
inductive ReactionType where
  | challenge
  | block
  | pass
deriving DecidableEq, Repr, Fintype

/-- A pending reaction, following `reaction_table_orm` (three-tier
migration DDL): reactor, actor whose action is reacted to, the targeted
action type, the reaction type, the claimed blocking role, and the
`is_locked` / `is_resolved` flags.  `targetBlocker` is the
challenge-of-block marker the spec requires ("challenges against the
block ... captured as Reactions targeting the block", section 4.5);
modelled from the spec since the DDL's enum detail is not shown. -/
structure Reaction where
  reactor : Nat
  actor : Nat
  targetAction : ActionType
  rtype : ReactionType
  blockRole : Option CardType
  targetBlocker : Option Nat
  isLocked : Bool
  isResolved : Bool
deriving DecidableEq, Repr

/-- Numeric code of an action type (for the canonical tie-break order). -/
def actionTypeNat : ActionType → Nat
  | .income => 0
  | .foreignAid => 1
  | .coup => 2
  | .tax => 3
  | .assassinate => 4
  | .steal => 5
  | .exchange => 6

/-- Numeric code of a card type. -/
def cardTypeNat : CardType → Nat
  | .duke => 0
  | .assassin => 1
  | .captain => 2
  | .ambassador => 3
  | .contessa => 4

/-- Numeric code of a reaction type. -/
def reactionTypeNat : ReactionType → Nat
  | .challenge => 0
  | .block => 1
  | .pass => 2

/-- Numeric code of an optional card type. -/
def optCardNat : Option CardType → Nat
  | none => 0
  | some c => cardTypeNat c + 1

/-- Numeric code of an optional user id. -/
def optNatNat : Option Nat → Nat
  | none => 0
  | some n => n + 1

/-- Numeric code of a boolean flag. -/
def boolNat : Bool → Nat
  | false => 0
  | true => 1

/-- Injective numeric encoding of a reaction; the fixed tie-break ordering
of the Resolution Engine sorts reaction rows by this key. -/
def encodeReaction (r : Reaction) : Nat :=
  Nat.pair r.reactor (Nat.pair r.actor (Nat.pair (actionTypeNat r.targetAction)
    (Nat.pair (reactionTypeNat r.rtype) (Nat.pair (optCardNat r.blockRole)
      (Nat.pair (optNatNat r.targetBlocker)
        (Nat.pair (boolNat r.isLocked) (boolNat r.isResolved)))))))

/-- The fixed tie-break order on reaction rows. -/
def reactionLE (a b : Reaction) : Prop :=
  encodeReaction a ≤ encodeReaction b

instance : DecidableRel reactionLE := fun a b =>
  inferInstanceAs (Decidable (encodeReaction a ≤ encodeReaction b))

instance : IsTotal Reaction reactionLE :=
  ⟨fun a b => Nat.le_total (encodeReaction a) (encodeReaction b)⟩

instance : IsTrans Reaction reactionLE :=
  ⟨fun _ _ _ h1 h2 => Nat.le_trans h1 h2⟩

instance : IsAntisymm Reaction reactionLE where
  antisymm a b h1 h2 := by
    have henc : encodeReaction a = encodeReaction b := Nat.le_antisymm h1 h2
    have hat : ∀ x y : ActionType, actionTypeNat x = actionTypeNat y → x = y := by decide
    have hrt : ∀ x y : ReactionType, reactionTypeNat x = reactionTypeNat y → x = y := by
      decide
    have hoc : ∀ x y : Option CardType, optCardNat x = optCardNat y → x = y := by decide
    have hbn : ∀ x y : Bool, boolNat x = boolNat y → x = y := by decide
    have hon : ∀ x y : Option Nat, optNatNat x = optNatNat y → x = y := by
      intro x y h
      cases x <;> cases y <;> simp [optNatNat] at h <;> simp [h]
    cases a with
    | mk ra aa ta rta bra tba la va =>
      cases b with
      | mk rb ab tb rtb brb tbb lb vb =>
        simp only [encodeReaction, Nat.pair_eq_pair] at henc
        obtain ⟨e1, e2, e3, e4, e5, e6, e7, e8⟩ := henc
        simp only [Reaction.mk.injEq]
        exact ⟨e1, e2, hat _ _ e3, hrt _ _ e4, hoc _ _ e5, hon _ _ e6,
          hbn _ _ e7, hbn _ _ e8⟩

/-- Canonical presentation of the frozen reaction set: sorted by the fixed
tie-break order, so resolution does not depend on row arrival order. -/
def sortReactions (rs : List Reaction) : List Reaction :=
  List.insertionSort reactionLE rs

/-- Role claimed implicitly by a challengeable action (Game Rules
Reference: Tax claims Duke, Assassinate claims Assassin, Steal claims
Captain, Exchange claims Ambassador; the rest are unchallengeable). -/
def requiredRole : ActionType → Option CardType
  | .tax => some .duke
  | .assassinate => some .assassin
  | .steal => some .captain
  | .exchange => some .ambassador
  | _ => none

/-- Roles that may block an action (Game Rules Reference: Foreign Aid is
blocked by Duke, Assassinate by Contessa, Steal by Captain or Ambassador;
the rest are unblockable). -/
def validBlockRoles : ActionType → List CardType
  | .foreignAid => [.duke]
  | .assassinate => [.contessa]
  | .steal => [.captain, .ambassador]
  | _ => []

/-- Whether a claimed blocking role is valid for the action type. -/
def blockRoleValid (ty : ActionType) : Option CardType → Bool
  | some br => br ∈ validBlockRoles ty
  | none => false

/-- Effects summary entries of a `TurnResult` (`results_json` content). -/
inductive Effect where
  | coinsGained (uid amount : Nat)
  | coinsLost (uid amount : Nat)
  | cardLost (uid : Nat)
  | blocked (actor : Nat)
  | actionCancelled (actor : Nat)
deriving DecidableEq, Repr

/-- Working state threaded through resolution: the evolving game state,
the effects summary so far, and this turn's eliminated list. -/
structure RState where
  st : GameState
  effects : List Effect
  elim : List Nat
deriving DecidableEq, Repr

/-- Add coins to a player (recorded in the effects summary). -/
def addCoins (rs : RState) (uid amount : Nat) : RState :=
  { rs with
    st := updatePlayer rs.st uid fun q => { q with coins := q.coins + amount }
    effects := rs.effects ++ [.coinsGained uid amount] }

/-- Remove coins from a player (Nat-truncated; callers cap the amount at
the available coins, as steal does). -/
def subCoins (rs : RState) (uid amount : Nat) : RState :=
  { rs with
    st := updatePlayer rs.st uid fun q => { q with coins := q.coins - amount }
    effects := rs.effects ++ [.coinsLost uid amount] }

/-- Player-record update used by card loss: the remaining hand is `c` and
the player stays alive exactly while `c` is non-empty. -/
def cardLossUpd (c : List CardType) (q : PlayerState) : PlayerState :=
  { q with cards := c, isAlive := !c.isEmpty }

/-- Modelled from the spec: forced card loss (section 4.5 step 4).  A card
is removed only from a living player (the count can never go below zero);
which card is lost is the target's hidden choice, modelled
deterministically as the first held card; when the card count reaches
zero the player is marked `is_alive = false` and appended to this turn's
eliminated list. -/
def applyCardLoss (rs : RState) (uid : Nat) : RState :=
  match findPlayer rs.st uid with
  | none => rs
  | some p =>
    if p.isAlive then
      { st := updatePlayer rs.st uid (cardLossUpd p.cards.tail)
        effects := rs.effects ++ [.cardLost uid]
        elim := if !p.cards.tail.isEmpty then rs.elim else rs.elim ++ [uid] }
    else rs

/-- Modelled from the spec: steal moves 2 coins from target to actor,
capped at the target's available coins (section 4.5 step 3). -/
def stealCoins (rs : RState) (actorId tid : Nat) : RState :=
  match findPlayer rs.st tid with
  | none => rs
  | some t => addCoins (subCoins rs tid (min 2 t.coins)) actorId (min 2 t.coins)

/-- Modelled from the spec: the direct effect of an action that survived
challenges and blocks (section 4.5 step 3).  Income +1, Foreign Aid +2,
Tax +3, Coup and Assassinate force card loss on the target (their coin
cost was paid at declaration), Steal transfers up to 2 coins.  Exchange
draws then returns to hand size against the external deck, so its net
effect on this state is empty. -/
def applyEffect (rs : RState) (actorId : Nat) (act : PendingAction) : RState :=
  match act.actionType with
  | .income => addCoins rs actorId 1
  | .foreignAid => addCoins rs actorId 2
  | .tax => addCoins rs actorId 3
  | .coup =>
    match act.target with
    | some t => applyCardLoss rs t
    | none => rs
  | .assassinate =>
    match act.target with
    | some t => applyCardLoss rs t
    | none => rs
  | .steal =>
    match act.target with
    | some t => stealCoins rs actorId t
    | none => rs
  | .exchange => rs

/-- Challenge rows against an actor's pending action (not against a
block). -/
def challengesAgainst (rsor : List Reaction) (actorId : Nat) (ty : ActionType) :
    List Reaction :=
  rsor.filter fun r =>
    decide (r.rtype = .challenge ∧ r.actor = actorId ∧ r.targetAction = ty ∧
      r.targetBlocker = none)

/-- Block rows against an actor's pending action whose claimed role is
valid for the action type. -/
def blocksAgainst (rsor : List Reaction) (actorId : Nat) (ty : ActionType) :
    List Reaction :=
  rsor.filter fun r =>
    decide (r.rtype = .block ∧ r.actor = actorId ∧ r.targetAction = ty ∧
      blockRoleValid ty r.blockRole = true)

/-- Challenge rows targeting a specific blocker's block of an actor's
action. -/
def challengesOfBlock (rsor : List Reaction) (actorId blocker : Nat) :
    List Reaction :=
  rsor.filter fun r =>
    decide (r.rtype = .challenge ∧ r.actor = actorId ∧ r.targetBlocker = some blocker)

/-- Modelled from the spec: a challenged block tested against the
blocker's actual hand (section 4.5 step 2): a truthful blocker costs the
challenger a card and still cancels the action; a bluffing (or vanished)
blocker loses a card and the action proceeds. -/
def blockVsChallenge (rs : RState) (actorId : Nat) (act : PendingAction)
    (b bc : Reaction) : RState :=
  match findPlayer rs.st b.reactor, b.blockRole with
  | some bp, some br =>
    if br ∈ bp.cards then
      let rs1 := applyCardLoss rs bc.reactor
      { rs1 with effects := rs1.effects ++ [.blocked actorId] }
    else applyEffect (applyCardLoss rs b.reactor) actorId act
  | _, _ => applyEffect (applyCardLoss rs b.reactor) actorId act

/-- Modelled from the spec: once a valid-role block is on the table, if no
challenge targets it the block stands — regardless of whether the blocker
actually holds the claimed role — and the action's effect is cancelled
(section 4.5 step 2). -/
def blockChallengeStage (rsor : List Reaction) (rs : RState) (actorId : Nat)
    (act : PendingAction) (b : Reaction) : RState :=
  match (challengesOfBlock rsor actorId b.reactor).head? with
  | none => { rs with effects := rs.effects ++ [.blocked actorId] }
  | some bc => blockVsChallenge rs actorId act b bc

/-- Modelled from the spec: block stage of resolution (section 4.5 step
2).  With no valid-role block the action's effect applies; the first
block in tie-break order is taken. -/
def resolveBlockStage (rsor : List Reaction) (rs : RState) (actorId : Nat)
    (act : PendingAction) : RState :=
  match (blocksAgainst rsor actorId act.actionType).head? with
  | none => applyEffect rs actorId act
  | some b => blockChallengeStage rsor rs actorId act b

/-- Modelled from the spec: a challengeable action with a pending
challenge is tested against the actor's actual hand (section 4.5 step 1):
a truthful actor costs the first challenger (in tie-break order) a card
and the action proceeds to the block stage; a bluffing actor loses a card
and the action is cancelled. -/
def processWithChallenge (rsor : List Reaction) (rs : RState) (actorId : Nat)
    (act : PendingAction) (p : PlayerState) (role : CardType) : RState :=
  match (challengesAgainst rsor actorId act.actionType).head? with
  | none => resolveBlockStage rsor rs actorId act
  | some ch =>
    if role ∈ p.cards then
      resolveBlockStage rsor (applyCardLoss rs ch.reactor) actorId act
    else
      let rs1 := applyCardLoss rs actorId
      { rs1 with effects := rs1.effects ++ [.actionCancelled actorId] }

/-- Modelled from the spec: challenge stage, then block stage, for one
pending action (section 4.5 steps 1-2). -/
def processPending (rsor : List Reaction) (rs : RState) (actorId : Nat)
    (act : PendingAction) (p : PlayerState) : RState :=
  match requiredRole act.actionType with
  | none => resolveBlockStage rsor rs actorId act
  | some role => processWithChallenge rsor rs actorId act p role

/-- Modelled from the spec: per-action resolution (section 4.5 steps 1-3).
A dead or absent actor, or one with no pending declaration, resolves to
nothing; otherwise the pending action goes through the challenge and
block stages and, if it survives, its effect is applied. -/
def processAction (rsor : List Reaction) (rs : RState) (actorId : Nat) : RState :=
  match findPlayer rs.st actorId with
  | none => rs
  | some p =>
    if !p.isAlive then rs
    else
      match p.pending with
      | [] => rs
      | act :: _ => processPending rsor rs actorId act p

/-- A per-turn result record, following `turn_result_table_orm`:
effects summary (`results_json`), human-readable `summary`, and the
`players_eliminated` list. -/
structure TurnResult where
  effects : List Effect
  summary : String
  eliminated : List Nat
deriving DecidableEq, Repr

/-- Deterministic one-line rendering of the turn for the `summary`
column. -/
def mkSummary (effects : List Effect) (elim : List Nat) : String :=
  "effects:" ++ toString effects.length ++ ";eliminated:" ++ toString elim.length

/-- Modelled from the spec: the Resolution Engine (section 4.5,
implemented by the unavailable `ActionResolutionService`).  Sorts the
frozen reaction rows into the fixed tie-break order and processes each
player's pending action in ascending join order, threading coin
transfers, card losses and eliminations, and produces the turn's
`TurnResult`. -/
def resolveTurn (st : GameState) (reactions : List Reaction) :
    GameState × TurnResult :=
  let rsor := sortReactions reactions
  let final := (st.players.map PlayerState.userId).foldl (processAction rsor) ⟨st, [], []⟩
  (final.st, ⟨final.effects, mkSummary final.effects final.elim, final.elim⟩)

/-- Per-state well-formedness the Resolution Engine maintains: player ids
are distinct and a player is alive exactly while holding at least one
card. -/
def stInv (st : GameState) : Prop :=
  (st.players.map PlayerState.userId).Nodup ∧
  ∀ p ∈ st.players, p.isAlive = !p.cards.isEmpty

/-- Resolution invariant relating a working state to the turn's starting
state: same roster, well-formed, eliminations recorded exactly once and
exactly for the players alive at turn start and dead now, liveness only
decreases, and card counts only decrease. -/
structure Inv (st₀ : GameState) (rs : RState) : Prop where
  ids : rs.st.players.map PlayerState.userId = st₀.players.map PlayerState.userId
  inv : stInv rs.st
  nodupElim : rs.elim.Nodup
  elimIff : ∀ u, u ∈ rs.elim ↔ (aliveIn st₀ u = true ∧ aliveIn rs.st u = false)
  aliveMono : ∀ u, aliveIn rs.st u = true → aliveIn st₀ u = true
  cardMono : ∀ u, cardCountOf rs.st u ≤ cardCountOf st₀ u

/-! ## Concrete sample states (used to instantiate the theorems) -/

/-- A sample tax declaration (claims Duke). -/
def demoReqTax : PendingAction := ⟨.tax, none, some .duke, false⟩

/-- A sample coup declaration targeting player 2. -/
def demoReqCoup : PendingAction := ⟨.coup, some 2, none, false⟩

/-- A sample two-player state where player 1 holds 11 coins. -/
def demoRich : GameState :=
  ⟨[⟨1, 11, 0, [.duke], true, []⟩, ⟨2, 2, 0, [.contessa], true, []⟩]⟩

/-- `demoRich` after player 1 successfully declares the coup:
cost 7 paid at declaration, pending list overwritten. -/
def demoRichAfterCoup : GameState :=
  ⟨[⟨1, 4, 0, [.duke], true, [demoReqCoup]⟩, ⟨2, 2, 0, [.contessa], true, []⟩]⟩

/-- A sample locked block reaction by player 2 against player 1's
assassination, claiming Contessa. -/
def demoBlockReaction : Reaction :=
  ⟨2, 1, .assassinate, .block, some .contessa, none, true, false⟩

/-- A sample locked pass reaction by player 2. -/
def demoPassReaction : Reaction :=
  ⟨2, 1, .assassinate, .pass, none, none, true, false⟩

/-- A sample assassination declaration by player 1 targeting player 2. -/
def demoReqAssassin : PendingAction := ⟨.assassinate, some 2, some .assassin, false⟩

/-- Scenario-D state: player 1 holds the Assassin and has the
assassination pending (3 coins already paid at declaration); player 2
holds a Duke — and no Contessa. -/
def demoAssassinSt : GameState :=
  ⟨[⟨1, 0, 0, [.assassin], true, [demoReqAssassin]⟩, ⟨2, 2, 0, [.duke], true, []⟩]⟩

/-- A sample coup declaration targeting player 1. -/
def demoReqCoupAt1 : PendingAction := ⟨.coup, some 1, none, false⟩

/-- Scenario-C state: player 1 has exactly 7 coins, player 2 has two
cards. -/
def demoCoupSt : GameState :=
  ⟨[⟨1, 7, 0, [.duke], true, []⟩, ⟨2, 2, 0, [.contessa, .duke], true, []⟩]⟩

end Coup

/-! # Theorems -/

namespace Coup

/-! ### Helper lemmas about player lookup and update -/

theorem findPlayer_userId {st : GameState} {uid : Nat} {p : PlayerState}
    (h : findPlayer st uid = some p) : p.userId = uid := by
  have := List.find?_some h
  simpa using this

theorem findPlayer_mem {st : GameState} {uid : Nat} {p : PlayerState}
    (h : findPlayer st uid = some p) : p ∈ st.players :=
  List.mem_of_find?_eq_some h

theorem findPlayer_update (st : GameState) (uid : Nat) (f : PlayerState → PlayerState)
    (hf : ∀ p, (f p).userId = p.userId) (v : Nat) :
    findPlayer (updatePlayer st uid f) v =
      (findPlayer st v).map fun p => if p.userId == uid then f p else p := by
  unfold findPlayer updatePlayer
  rw [List.find?_map]
  have hpred : ((fun p => p.userId == v) ∘ fun p => if (p.userId == uid) = true then f p else p) =
      fun p => p.userId == v := by
    funext p
    by_cases h : p.userId = uid <;> simp [h, hf]
  rw [hpred]

theorem findPlayer_update_self {st : GameState} {uid : Nat} {p : PlayerState}
    (f : PlayerState → PlayerState) (hf : ∀ q, (f q).userId = q.userId)
    (h : findPlayer st uid = some p) :
    findPlayer (updatePlayer st uid f) uid = some (f p) := by
  rw [findPlayer_update st uid f hf uid, h]
  simp [findPlayer_userId h]

theorem findPlayer_update_other {st : GameState} {uid v : Nat}
    (f : PlayerState → PlayerState) (hf : ∀ q, (f q).userId = q.userId)
    (hv : v ≠ uid) :
    findPlayer (updatePlayer st uid f) v = findPlayer st v := by
  rw [findPlayer_update st uid f hf v]
  cases h : findPlayer st v with
  | none => rfl
  | some q =>
    have hq := findPlayer_userId h
    simp [hq, hv]

theorem pendingOf_update {st : GameState} {uid : Nat} (f : PlayerState → PlayerState)
    (hf_id : ∀ q, (f q).userId = q.userId) (hf_p : ∀ q, (f q).pending = q.pending)
    (v : Nat) : pendingOf (updatePlayer st uid f) v = pendingOf st v := by
  unfold pendingOf
  rw [findPlayer_update st uid f hf_id v]
  cases h : findPlayer st v with
  | none => rfl
  | some q => by_cases hq : q.userId = uid <;> simp [hq, hf_p]

theorem coinsOf_update {st : GameState} {uid : Nat} (f : PlayerState → PlayerState)
    (hf_id : ∀ q, (f q).userId = q.userId) (hf_c : ∀ q, (f q).coins = q.coins)
    (v : Nat) : coinsOf (updatePlayer st uid f) v = coinsOf st v := by
  unfold coinsOf
  rw [findPlayer_update st uid f hf_id v]
  cases h : findPlayer st v with
  | none => rfl
  | some q => by_cases hq : q.userId = uid <;> simp [hq, hf_c]

theorem aliveIn_update {st : GameState} {uid : Nat} (f : PlayerState → PlayerState)
    (hf_id : ∀ q, (f q).userId = q.userId) (hf_a : ∀ q, (f q).isAlive = q.isAlive)
    (v : Nat) : aliveIn (updatePlayer st uid f) v = aliveIn st v := by
  unfold aliveIn
  rw [findPlayer_update st uid f hf_id v]
  cases h : findPlayer st v with
  | none => rfl
  | some q => by_cases hq : q.userId = uid <;> simp [hq, hf_a]

theorem cardCountOf_update {st : GameState} {uid : Nat} (f : PlayerState → PlayerState)
    (hf_id : ∀ q, (f q).userId = q.userId) (hf_ca : ∀ q, (f q).cards = q.cards)
    (v : Nat) : cardCountOf (updatePlayer st uid f) v = cardCountOf st v := by
  unfold cardCountOf
  rw [findPlayer_update st uid f hf_id v]
  cases h : findPlayer st v with
  | none => rfl
  | some q => by_cases hq : q.userId = uid <;> simp [hq, hf_ca]

theorem mapUserId_update (st : GameState) (uid : Nat) (f : PlayerState → PlayerState)
    (hf_id : ∀ q, (f q).userId = q.userId) :
    (updatePlayer st uid f).players.map PlayerState.userId =
      st.players.map PlayerState.userId := by
  unfold updatePlayer
  rw [List.map_map]
  congr 1
  funext q
  by_cases hq : q.userId = uid <;> simp [hq, hf_id]

/-! ### Pending declarations are untouched by resolution -/

theorem pendingOf_addCoins (rs : RState) (u n v : Nat) :
    pendingOf (addCoins rs u n).st v = pendingOf rs.st v :=
  pendingOf_update (fun q => { q with coins := q.coins + n })
    (fun _ => rfl) (fun _ => rfl) v

theorem pendingOf_subCoins (rs : RState) (u n v : Nat) :
    pendingOf (subCoins rs u n).st v = pendingOf rs.st v :=
  pendingOf_update (fun q => { q with coins := q.coins - n })
    (fun _ => rfl) (fun _ => rfl) v

theorem pendingOf_applyCardLoss (rs : RState) (u v : Nat) :
    pendingOf (applyCardLoss rs u).st v = pendingOf rs.st v := by
  unfold applyCardLoss
  cases h : findPlayer rs.st u with
  | none => rfl
  | some p =>
    by_cases hp : p.isAlive = true
    · simp only [hp, if_true]
      exact pendingOf_update (cardLossUpd p.cards.tail) (fun _ => rfl) (fun _ => rfl) v
    · simp [hp]

theorem pendingOf_stealCoins (rs : RState) (a t v : Nat) :
    pendingOf (stealCoins rs a t).st v = pendingOf rs.st v := by
  unfold stealCoins
  cases h : findPlayer rs.st t with
  | none => rfl
  | some p =>
    rw [pendingOf_addCoins, pendingOf_subCoins]

theorem pendingOf_applyEffect (rs : RState) (a : Nat) (act : PendingAction) (v : Nat) :
    pendingOf (applyEffect rs a act).st v = pendingOf rs.st v := by
  unfold applyEffect
  cases act.actionType <;>
    first
      | exact pendingOf_addCoins ..
      | rfl
      | (cases act.target with
          | none => rfl
          | some t =>
            first
              | exact pendingOf_applyCardLoss ..
              | exact pendingOf_stealCoins ..)

theorem pendingOf_blockVsChallenge (rs : RState) (a : Nat) (act : PendingAction)
    (b bc : Reaction) (v : Nat) :
    pendingOf (blockVsChallenge rs a act b bc).st v = pendingOf rs.st v := by
  unfold blockVsChallenge
  cases findPlayer rs.st b.reactor with
  | none => rw [pendingOf_applyEffect, pendingOf_applyCardLoss]
  | some bp =>
    cases b.blockRole with
    | none => rw [pendingOf_applyEffect, pendingOf_applyCardLoss]
    | some br =>
      by_cases hbr : br ∈ bp.cards
      · simp only [hbr, if_true]
        exact pendingOf_applyCardLoss ..
      · simp only [hbr, if_false]
        rw [pendingOf_applyEffect, pendingOf_applyCardLoss]

theorem pendingOf_blockChallengeStage (rsor : List Reaction) (rs : RState) (a : Nat)
    (act : PendingAction) (b : Reaction) (v : Nat) :
    pendingOf (blockChallengeStage rsor rs a act b).st v = pendingOf rs.st v := by
  unfold blockChallengeStage
  cases (challengesOfBlock rsor a b.reactor).head? with
  | none => rfl
  | some bc => exact pendingOf_blockVsChallenge ..

theorem pendingOf_resolveBlockStage (rsor : List Reaction) (rs : RState) (a : Nat)
    (act : PendingAction) (v : Nat) :
    pendingOf (resolveBlockStage rsor rs a act).st v = pendingOf rs.st v := by
  unfold resolveBlockStage
  cases (blocksAgainst rsor a act.actionType).head? with
  | none => exact pendingOf_applyEffect ..
  | some b => exact pendingOf_blockChallengeStage ..

theorem pendingOf_processWithChallenge (rsor : List Reaction) (rs : RState) (a : Nat)
    (act : PendingAction) (p : PlayerState) (role : CardType) (v : Nat) :
    pendingOf (processWithChallenge rsor rs a act p role).st v = pendingOf rs.st v := by
  unfold processWithChallenge
  cases (challengesAgainst rsor a act.actionType).head? with
  | none => exact pendingOf_resolveBlockStage ..
  | some ch =>
    by_cases hrole : role ∈ p.cards
    · simp only [hrole, if_true]
      rw [pendingOf_resolveBlockStage, pendingOf_applyCardLoss]
    · simp only [hrole, if_false]
      exact pendingOf_applyCardLoss ..

theorem pendingOf_processPending (rsor : List Reaction) (rs : RState) (a : Nat)
    (act : PendingAction) (p : PlayerState) (v : Nat) :
    pendingOf (processPending rsor rs a act p).st v = pendingOf rs.st v := by
  unfold processPending
  cases requiredRole act.actionType with
  | none => exact pendingOf_resolveBlockStage ..
  | some role => exact pendingOf_processWithChallenge ..

theorem pendingOf_processAction (rsor : List Reaction) (rs : RState) (a v : Nat) :
    pendingOf (processAction rsor rs a).st v = pendingOf rs.st v := by
  unfold processAction
  cases findPlayer rs.st a with
  | none => rfl
  | some p =>
    by_cases hp : p.isAlive = true
    · simp only [hp, Bool.not_true, Bool.false_eq_true, if_false]
      cases p.pending with
      | nil => rfl
      | cons act rest => exact pendingOf_processPending ..
    · simp [hp]

theorem processAction_of_no_pending (rsor : List Reaction) (rs : RState) (u : Nat)
    (h : pendingOf rs.st u = []) : processAction rsor rs u = rs := by
  unfold processAction
  cases hf : findPlayer rs.st u with
  | none => rfl
  | some p =>
    have h' : p.pending = [] := by
      have h2 := h
      unfold pendingOf at h2
      rw [hf] at h2
      exact h2
    by_cases hp : p.isAlive = true <;> simp [hp, h']

theorem foldl_processAction_of_no_pending (rsor : List Reaction) (uids : List Nat)
    (rs : RState) (h : ∀ u ∈ uids, pendingOf rs.st u = []) :
    uids.foldl (processAction rsor) rs = rs := by
  induction uids with
  | nil => rfl
  | cons u us ih =>
    have h1 : pendingOf rs.st u = [] := h u (by simp)
    rw [List.foldl_cons, processAction_of_no_pending rsor rs u h1]
    exact ih fun v hv => h v (by simp [hv])

/-- When exactly one player has a pending declaration, resolving the turn
amounts to processing that player's action alone. -/
theorem resolveTurn_single_actor (st : GameState) (reactions : List Reaction) (a : Nat)
    (hnd : (st.players.map PlayerState.userId).Nodup)
    (hmem : a ∈ st.players.map PlayerState.userId)
    (hothers : ∀ v, v ≠ a → pendingOf st v = []) :
    resolveTurn st reactions =
      ((processAction (sortReactions reactions) ⟨st, [], []⟩ a).st,
       ⟨(processAction (sortReactions reactions) ⟨st, [], []⟩ a).effects,
        mkSummary (processAction (sortReactions reactions) ⟨st, [], []⟩ a).effects
          (processAction (sortReactions reactions) ⟨st, [], []⟩ a).elim,
        (processAction (sortReactions reactions) ⟨st, [], []⟩ a).elim⟩) := by
  obtain ⟨l₁, l₂, hsplit⟩ := List.append_of_mem hmem
  have hnd' := hnd
  rw [hsplit] at hnd'
  have ha1 : a ∉ l₁ := by
    intro hmem1
    have := (List.nodup_append.mp hnd').2.2
    exact this hmem1 (List.mem_cons_self a l₂)
  have ha2 : a ∉ l₂ := by
    have := (List.nodup_append.mp hnd').2.1
    exact (List.nodup_cons.mp this).1
  have key : (st.players.map PlayerState.userId).foldl
      (processAction (sortReactions reactions)) ⟨st, [], []⟩ =
      processAction (sortReactions reactions) ⟨st, [], []⟩ a := by
    rw [hsplit, List.foldl_append]
    have h1 : l₁.foldl (processAction (sortReactions reactions)) ⟨st, [], []⟩ =
        ⟨st, [], []⟩ := by
      apply foldl_processAction_of_no_pending
      intro u hu
      exact hothers u fun he => ha1 (he ▸ hu)
    rw [h1, List.foldl_cons]
    apply foldl_processAction_of_no_pending
    intro u hu
    rw [pendingOf_processAction]
    exact hothers u fun he => ha2 (he ▸ hu)
  simp only [resolveTurn]
  rw [key]

/-! ### Preservation of the resolution invariant -/

theorem stInv_update (st : GameState) (uid : Nat) (f : PlayerState → PlayerState)
    (hf_id : ∀ q, (f q).userId = q.userId) (hf_ca : ∀ q, (f q).cards = q.cards)
    (hf_al : ∀ q, (f q).isAlive = q.isAlive) (h : stInv st) :
    stInv (updatePlayer st uid f) := by
  constructor
  · rw [mapUserId_update st uid f hf_id]
    exact h.1
  · intro p' hp'
    unfold updatePlayer at hp'
    simp only [List.mem_map] at hp'
    obtain ⟨q, hq, hge⟩ := hp'
    rw [← hge]
    by_cases hqi : q.userId == uid
    · simp only [hqi, if_true]
      rw [hf_al, hf_ca]
      exact h.2 q hq
    · simp only [hqi, if_false]
      exact h.2 q hq

theorem Inv_update_coins (st₀ : GameState) (rs : RState) (u : Nat)
    (f : PlayerState → PlayerState) (es : List Effect)
    (hf_id : ∀ q, (f q).userId = q.userId) (hf_ca : ∀ q, (f q).cards = q.cards)
    (hf_al : ∀ q, (f q).isAlive = q.isAlive)
    (h : Inv st₀ rs) : Inv st₀ ⟨updatePlayer rs.st u f, es, rs.elim⟩ := by
  refine ⟨(mapUserId_update rs.st u f hf_id).trans h.ids,
    stInv_update rs.st u f hf_id hf_ca hf_al h.inv, h.nodupElim, ?_, ?_, ?_⟩
  · intro v
    show v ∈ rs.elim ↔ (aliveIn st₀ v = true ∧ aliveIn (updatePlayer rs.st u f) v = false)
    rw [aliveIn_update f hf_id hf_al v]
    exact h.elimIff v
  · intro v
    show aliveIn (updatePlayer rs.st u f) v = true → aliveIn st₀ v = true
    rw [aliveIn_update f hf_id hf_al v]
    exact h.aliveMono v
  · intro v
    show cardCountOf (updatePlayer rs.st u f) v ≤ cardCountOf st₀ v
    rw [cardCountOf_update f hf_id hf_ca v]
    exact h.cardMono v

theorem Inv_addCoins (st₀ : GameState) (rs : RState) (u n : Nat)
    (h : Inv st₀ rs) : Inv st₀ (addCoins rs u n) := by
  unfold addCoins
  exact Inv_update_coins st₀ rs u _ _ (fun _ => rfl) (fun _ => rfl) (fun _ => rfl) h

theorem Inv_subCoins (st₀ : GameState) (rs : RState) (u n : Nat)
    (h : Inv st₀ rs) : Inv st₀ (subCoins rs u n) := by
  unfold subCoins
  exact Inv_update_coins st₀ rs u _ _ (fun _ => rfl) (fun _ => rfl) (fun _ => rfl) h

theorem Inv_applyCardLoss (st₀ : GameState) (rs : RState) (u : Nat)
    (h : Inv st₀ rs) : Inv st₀ (applyCardLoss rs u) := by
  unfold applyCardLoss
  cases hf : findPlayer rs.st u with
  | none => exact h
  | some p =>
    by_cases hp : p.isAlive = true
    case neg =>
      simp only [hp, if_false]
      exact h
    simp only [hp, if_true]
    have halive_u : aliveIn rs.st u = true := by
      unfold aliveIn
      rw [hf]
      exact hp
    have hcard_u : cardCountOf rs.st u = p.cards.length := by
      unfold cardCountOf
      rw [hf]
    have hfs := findPlayer_update_self (cardLossUpd p.cards.tail) (fun _ => rfl) hf
    have halive' : ∀ v, v ≠ u →
        aliveIn (updatePlayer rs.st u (cardLossUpd p.cards.tail)) v = aliveIn rs.st v := by
      intro v hv
      unfold aliveIn
      rw [findPlayer_update_other (cardLossUpd p.cards.tail) (fun _ => rfl) hv]
    have hcard' : ∀ v, v ≠ u →
        cardCountOf (updatePlayer rs.st u (cardLossUpd p.cards.tail)) v =
          cardCountOf rs.st v := by
      intro v hv
      unfold cardCountOf
      rw [findPlayer_update_other (cardLossUpd p.cards.tail) (fun _ => rfl) hv]
    have halive_u' : aliveIn (updatePlayer rs.st u (cardLossUpd p.cards.tail)) u =
        !p.cards.tail.isEmpty := by
      unfold aliveIn
      rw [hfs]
      rfl
    have hcard_u' : cardCountOf (updatePlayer rs.st u (cardLossUpd p.cards.tail)) u =
        p.cards.tail.length := by
      unfold cardCountOf
      rw [hfs]
      rfl
    have hids : (updatePlayer rs.st u (cardLossUpd p.cards.tail)).players.map
        PlayerState.userId = st₀.players.map PlayerState.userId :=
      (mapUserId_update rs.st u (cardLossUpd p.cards.tail) (fun _ => rfl)).trans h.ids
    have hinv : stInv (updatePlayer rs.st u (cardLossUpd p.cards.tail)) := by
      constructor
      · rw [mapUserId_update rs.st u (cardLossUpd p.cards.tail) (fun _ => rfl)]
        exact h.inv.1
      · intro p' hp'
        unfold updatePlayer at hp'
        simp only [List.mem_map] at hp'
        obtain ⟨q, hq, hge⟩ := hp'
        rw [← hge]
        by_cases hqi : q.userId == u
        · simp only [hqi, if_true]
          rfl
        · simp only [hqi, if_false]
          exact h.inv.2 q hq
    have hnotmem : u ∉ rs.elim := by
      intro hmem
      have hx := (h.elimIff u).mp hmem
      rw [halive_u] at hx
      exact absurd hx.2 (by simp)
    have hcm : ∀ v, cardCountOf (updatePlayer rs.st u (cardLossUpd p.cards.tail)) v ≤
        cardCountOf st₀ v := by
      intro v
      by_cases hv : v = u
      · rw [hv, hcard_u']
        have h1 : p.cards.tail.length ≤ p.cards.length := by
          rw [List.length_tail]
          omega
        have h2 : p.cards.length ≤ cardCountOf st₀ u := by
          rw [← hcard_u]
          exact h.cardMono u
        omega
      · rw [hcard' v hv]
        exact h.cardMono v
    have ham : ∀ v, aliveIn (updatePlayer rs.st u (cardLossUpd p.cards.tail)) v = true →
        aliveIn st₀ v = true := by
      intro v hvtrue
      by_cases hv : v = u
      · rw [hv]
        exact h.aliveMono u halive_u
      · rw [halive' v hv] at hvtrue
        exact h.aliveMono v hvtrue
    by_cases htail : p.cards.tail.isEmpty = true
    · rw [if_neg (by rw [htail]; simp)]
      refine ⟨hids, hinv, ?_, ?_, ham, hcm⟩
      · show (rs.elim ++ [u]).Nodup
        rw [List.nodup_append]
        refine ⟨h.nodupElim, List.nodup_singleton u, ?_⟩
        intro x hx hxu
        rw [List.mem_singleton] at hxu
        rw [hxu] at hx
        exact hnotmem hx
      · intro v
        show v ∈ rs.elim ++ [u] ↔ aliveIn st₀ v = true ∧
          aliveIn (updatePlayer rs.st u (cardLossUpd p.cards.tail)) v = false
        by_cases hv : v = u
        · rw [hv]
          simp only [List.mem_append, List.mem_singleton, or_true, true_iff]
          refine ⟨h.aliveMono u halive_u, ?_⟩
          rw [halive_u', htail]
          rfl
        · simp only [List.mem_append, List.mem_singleton, hv, or_false]
          rw [halive' v hv]
          exact h.elimIff v
    · have htrue : (!p.cards.tail.isEmpty) = true := by
        cases hh : p.cards.tail.isEmpty
        · rfl
        · exact absurd hh htail
      rw [if_pos htrue]
      refine ⟨hids, hinv, h.nodupElim, ?_, ham, hcm⟩
      intro v
      show v ∈ rs.elim ↔ aliveIn st₀ v = true ∧
        aliveIn (updatePlayer rs.st u (cardLossUpd p.cards.tail)) v = false
      by_cases hv : v = u
      · rw [hv]
        constructor
        · intro hmem
          exact absurd hmem hnotmem
        · rintro ⟨_, h2⟩
          rw [halive_u', htrue] at h2
          exact absurd h2 (by simp)
      · rw [halive' v hv]
        exact h.elimIff v

theorem Inv_stealCoins (st₀ : GameState) (rs : RState) (a t : Nat)
    (h : Inv st₀ rs) : Inv st₀ (stealCoins rs a t) := by
  unfold stealCoins
  cases hf : findPlayer rs.st t with
  | none => exact h
  | some tp => exact Inv_addCoins st₀ _ a _ (Inv_subCoins st₀ rs t _ h)

theorem Inv_applyEffect (st₀ : GameState) (rs : RState) (a : Nat)
    (act : PendingAction) (h : Inv st₀ rs) : Inv st₀ (applyEffect rs a act) := by
  unfold applyEffect
  cases hty : act.actionType with
  | income => exact Inv_addCoins st₀ rs a 1 h
  | foreignAid => exact Inv_addCoins st₀ rs a 2 h
  | tax => exact Inv_addCoins st₀ rs a 3 h
  | coup =>
    cases act.target with
    | none => exact h
    | some t => exact Inv_applyCardLoss st₀ rs t h
  | assassinate =>
    cases act.target with
    | none => exact h
    | some t => exact Inv_applyCardLoss st₀ rs t h
  | steal =>
    cases act.target with
    | none => exact h
    | some t => exact Inv_stealCoins st₀ rs a t h
  | exchange => exact h

theorem Inv_set_effects (st₀ : GameState) (rs : RState) (es : List Effect)
    (h : Inv st₀ rs) : Inv st₀ ⟨rs.st, es, rs.elim⟩ :=
  ⟨h.ids, h.inv, h.nodupElim, h.elimIff, h.aliveMono, h.cardMono⟩

theorem Inv_blockVsChallenge (st₀ : GameState) (rs : RState) (a : Nat)
    (act : PendingAction) (b bc : Reaction) (h : Inv st₀ rs) :
    Inv st₀ (blockVsChallenge rs a act b bc) := by
  unfold blockVsChallenge
  cases findPlayer rs.st b.reactor with
  | none =>
    cases b.blockRole <;>
      exact Inv_applyEffect st₀ _ a act (Inv_applyCardLoss st₀ rs b.reactor h)
  | some bp =>
    cases b.blockRole with
    | none => exact Inv_applyEffect st₀ _ a act (Inv_applyCardLoss st₀ rs b.reactor h)
    | some br =>
      by_cases hbr : br ∈ bp.cards
      · simp only [hbr, if_true]
        exact Inv_set_effects st₀ _ _ (Inv_applyCardLoss st₀ rs bc.reactor h)
      · simp only [hbr, if_false]
        exact Inv_applyEffect st₀ _ a act (Inv_applyCardLoss st₀ rs b.reactor h)

theorem Inv_blockChallengeStage (st₀ : GameState) (rsor : List Reaction) (rs : RState)
    (a : Nat) (act : PendingAction) (b : Reaction) (h : Inv st₀ rs) :
    Inv st₀ (blockChallengeStage rsor rs a act b) := by
  unfold blockChallengeStage
  cases (challengesOfBlock rsor a b.reactor).head? with
  | none => exact Inv_set_effects st₀ rs _ h
  | some bc => exact Inv_blockVsChallenge st₀ rs a act b bc h

theorem Inv_resolveBlockStage (st₀ : GameState) (rsor : List Reaction) (rs : RState)
    (a : Nat) (act : PendingAction) (h : Inv st₀ rs) :
    Inv st₀ (resolveBlockStage rsor rs a act) := by
  unfold resolveBlockStage
  cases (blocksAgainst rsor a act.actionType).head? with
  | none => exact Inv_applyEffect st₀ rs a act h
  | some b => exact Inv_blockChallengeStage st₀ rsor rs a act b h

theorem Inv_processWithChallenge (st₀ : GameState) (rsor : List Reaction) (rs : RState)
    (a : Nat) (act : PendingAction) (p : PlayerState) (role : CardType)
    (h : Inv st₀ rs) : Inv st₀ (processWithChallenge rsor rs a act p role) := by
  unfold processWithChallenge
  cases (challengesAgainst rsor a act.actionType).head? with
  | none => exact Inv_resolveBlockStage st₀ rsor rs a act h
  | some ch =>
    by_cases hrole : role ∈ p.cards
    · simp only [hrole, if_true]
      exact Inv_resolveBlockStage st₀ rsor _ a act (Inv_applyCardLoss st₀ rs ch.reactor h)
    · simp only [hrole, if_false]
      exact Inv_set_effects st₀ _ _ (Inv_applyCardLoss st₀ rs a h)

theorem Inv_processPending (st₀ : GameState) (rsor : List Reaction) (rs : RState)
    (a : Nat) (act : PendingAction) (p : PlayerState) (h : Inv st₀ rs) :
    Inv st₀ (processPending rsor rs a act p) := by
  unfold processPending
  cases requiredRole act.actionType with
  | none => exact Inv_resolveBlockStage st₀ rsor rs a act h
  | some role => exact Inv_processWithChallenge st₀ rsor rs a act p role h

theorem Inv_processAction (st₀ : GameState) (rsor : List Reaction) (rs : RState)
    (a : Nat) (h : Inv st₀ rs) : Inv st₀ (processAction rsor rs a) := by
  unfold processAction
  cases findPlayer rs.st a with
  | none => exact h
  | some p =>
    by_cases hp : p.isAlive = true
    · simp only [hp, Bool.not_true, Bool.false_eq_true, if_false]
      cases p.pending with
      | nil => exact h
      | cons act rest => exact Inv_processPending st₀ rsor rs a act p h
    · have hp' : p.isAlive = false := by
        cases hh : p.isAlive
        · rfl
        · exact absurd hh hp
      simp only [hp', Bool.not_false, if_true]
      exact h

theorem Inv_foldl (st₀ : GameState) (rsor : List Reaction) (uids : List Nat)
    (rs : RState) (h : Inv st₀ rs) :
    Inv st₀ (uids.foldl (processAction rsor) rs) := by
  induction uids generalizing rs with
  | nil => exact h
  | cons u us ih =>
    rw [List.foldl_cons]
    exact ih _ (Inv_processAction st₀ rsor rs u h)

/-- C1 counterexample: the claim says every session's `current_phase` is one
of the six in-game phases unless the session's status is `ended`.  The
source's `GamePhaseSchema` has a seventh value `waiting`, and
`SessionSchema` places no constraint between `status` and `current_phase`:
a lobby session with `status = waiting` and `current_phase = waiting`
validates against the schema while satisfying neither disjunct. -/
theorem session_phase_claim_fails_for_lobby :
    sessionSchemaValid
        { sessionId := "s1", sessionName := "lobby", status := .waiting,
          currentPhase := some .waiting, playerCount := 0, maxPlayers := 6 } = true ∧
      ¬(isInGamePhase (some GamePhase.waiting) = true ∨
        SessionStatus.waiting = SessionStatus.ended) := by
  constructor
  · rfl
  · decide

/-- C1 (amended): under the scheduler model, every reachable session state
with `status = active` has a `current_phase` among the six in-game phases,
and every reachable state with `status = ended` has `current_phase`
`ending` or null; sessions still in the `waiting` lobby may carry the
seventh phase value `waiting` or null. -/
theorem session_phase_invariant (s : SessionStatus × Option GamePhase)
    (h : SchedReachable s) :
    (s.1 = SessionStatus.active →
      ∃ p, s.2 = some p ∧ p ∈ gamePhasesSix) ∧
    (s.1 = SessionStatus.ended →
      s.2 = some GamePhase.ending ∨ s.2 = none) := by
  induction h with
  | refl => exact ⟨fun h => by simp at h, fun h => by simp at h⟩
  | tail _ step _ =>
    cases step <;> simp [gamePhasesSix]

/-- C1 witness: the state after the scheduler starts a game is reachable and
satisfies the invariant. -/
theorem session_phase_invariant_holds_after_start :
    SchedReachable (SessionStatus.active, some GamePhase.phase1Actions) ∧
    GamePhase.phase1Actions ∈ gamePhasesSix := by
  have hreach : SchedReachable (SessionStatus.active, some GamePhase.phase1Actions) :=
    Relation.ReflTransGen.single (SchedStep.startGame none)
  refine ⟨hreach, ?_⟩
  obtain ⟨p, hp, hmem⟩ :=
    (session_phase_invariant (SessionStatus.active, some GamePhase.phase1Actions)
      hreach).1 rfl
  have hval : p = GamePhase.phase1Actions := by
    injection hp with h'
    exact h'.symm
  rw [hval] at hmem
  exact hmem

/-- C9: for every phase successfully started from a configured duration,
`time_remaining` is non-negative at every instant, is exactly zero whenever
the deadline has passed, and equals the exact remainder otherwise; it is a
total function, so expiry is never an error. -/
theorem time_remaining_nonneg (now duration t : Int) (clock : PhaseClock)
    (_h : startPhase now duration = .ok clock) :
    0 ≤ timeRemaining clock t ∧
    (clock.deadline ≤ t → timeRemaining clock t = 0) ∧
    (t ≤ clock.deadline → timeRemaining clock t = clock.deadline - t) := by
  refine ⟨le_max_right _ _, fun hle => ?_, fun hle => ?_⟩
  · simp [timeRemaining]
    omega
  · simp [timeRemaining]
    omega

/-- C9 witness: a phase started at time 100 with duration 20 is non-negative
at time 105 with 15 remaining, and reads exactly 0 at time 130, past the
deadline. -/
theorem time_remaining_nonneg_example :
    0 ≤ timeRemaining ⟨120⟩ 105 ∧
    timeRemaining ⟨120⟩ 105 = 120 - 105 ∧
    timeRemaining ⟨120⟩ 130 = 0 :=
  ⟨(time_remaining_nonneg 100 20 105 ⟨120⟩ rfl).1,
   (time_remaining_nonneg 100 20 105 ⟨120⟩ rfl).2.2 (by decide),
   (time_remaining_nonneg 100 20 130 ⟨120⟩ rfl).2.1 (by decide)⟩

/-- C8: the session configuration surface accepts a max-players value only
in the range 2..6; the six consumed per-phase duration defaults are
50/10/20/10/1/5 minutes; the defaults are positive; and duration
validation accepts exactly the configurations whose six durations are all
positive. -/
theorem session_config_surface :
    (∀ name m, createSessionRequestValid name m = true → 2 ≤ m ∧ m ≤ 6) ∧
    defaultPhaseDurations = ⟨50, 10, 20, 10, 1, 5⟩ ∧
    validateDurations defaultPhaseDurations = .ok () ∧
    (∀ d : PhaseDurations, validateDurations d = .ok () ↔
      0 < d.actionDuration ∧ 0 < d.lockoutActionDuration ∧ 0 < d.reactionDuration ∧
      0 < d.lockoutReactionDuration ∧ 0 < d.broadcastDuration ∧ 0 < d.endingDuration) := by
  refine ⟨fun name m h => ?_, rfl, rfl, fun d => ?_⟩
  · simp only [createSessionRequestValid, Bool.and_eq_true, decide_eq_true_eq] at h
    exact ⟨h.1.2, h.2⟩
  · constructor
    · intro h
      by_contra hc
      simp [validateDurations, hc] at h
    · intro h
      simp [validateDurations, h]

/-- C8 witness: a concrete valid request and the default durations satisfy
the configuration surface. -/
theorem session_config_surface_example :
    2 ≤ (4 : Int) ∧ (4 : Int) ≤ 6 :=
  session_config_surface.1 "weekly" 4 rfl

/-- C2: for every alive player with at least 10 coins, an Action Intake
submission of any type other than Coup during the action phase is
rejected with `ForcedCoupRequired`; an accepted submission (in any phase)
is necessarily a Coup; and a Coup with a valid target is accepted. -/
theorem forced_coup_rule (st : GameState) (uid : Nat) (req : PendingAction)
    (p : PlayerState) (hfind : findPlayer st uid = some p)
    (halive : p.isAlive = true) (hrich : 10 ≤ p.coins) :
    (req.actionType ≠ .coup →
      actionIntake st .phase1Actions uid req = .error .forcedCoupRequired) ∧
    (∀ phase st', actionIntake st phase uid req = .ok st' → req.actionType = .coup) ∧
    (req.actionType = .coup → goodTarget st uid req →
      actionIntake st .phase1Actions uid req = .ok (applyDeclaration st uid req)) := by
  refine ⟨?_, ?_, ?_⟩
  · intro hne
    unfold actionIntake
    rw [hfind]
    simp [halive, hrich, hne]
  · intro phase st' hok
    by_cases hc : req.actionType = .coup
    · exact hc
    · exfalso
      unfold actionIntake at hok
      rw [hfind] at hok
      simp [halive, hrich, hc] at hok
      split at hok <;> simp_all
  · intro hcoup hgood
    obtain ⟨t, ht, hns, tp, htp, htpa⟩ := hgood
    have htok : targetOk st uid req = true := by
      unfold targetOk
      rw [ht]
      simp [hns, htp, htpa]
    have hcost : ¬(p.coins < actionCost ActionType.coup) := by
      show ¬(p.coins < 7)
      omega
    unfold actionIntake
    rw [hfind]
    simp [halive, hcoup, hcost, htok]

/-- C2 witness: in a two-player state where player 1 is alive with 11
coins, a tax declaration is rejected with `ForcedCoupRequired` and a coup
declaration targeting player 2 is accepted. -/
theorem forced_coup_rule_example :
    10 ≤ (11 : Nat) ∧
    actionIntake demoRich .phase1Actions 1 demoReqTax = .error .forcedCoupRequired ∧
    actionIntake demoRich .phase1Actions 1 demoReqCoup =
      .ok (applyDeclaration demoRich 1 demoReqCoup) := by
  have h1 := forced_coup_rule demoRich 1 demoReqTax ⟨1, 11, 0, [.duke], true, []⟩
    rfl rfl (by decide)
  have h2 := forced_coup_rule demoRich 1 demoReqCoup ⟨1, 11, 0, [.duke], true, []⟩
    rfl rfl (by decide)
  refine ⟨by decide, h1.1 (by decide), ?_⟩
  exact h2.2.2 rfl ⟨2, rfl, by decide, ⟨2, 2, 0, [.contessa], true, []⟩, rfl, rfl⟩

/-- C6: a successful Action Intake declaration happens only during the
action phase, leaves the declaring player with exactly the new single
pending declaration (replacing, never appending to, any earlier one), and
leaves every other player's pending list untouched. -/
theorem declaration_overwrites (st : GameState) (phase : GamePhase) (uid : Nat)
    (req : PendingAction) (st' : GameState)
    (h : actionIntake st phase uid req = .ok st') :
    phase = GamePhase.phase1Actions ∧
    pendingOf st' uid = [req] ∧
    ∀ v, v ≠ uid → pendingOf st' v = pendingOf st v := by
  unfold actionIntake at h
  cases hfind : findPlayer st uid with
  | none => rw [hfind] at h; simp at h
  | some p =>
    rw [hfind] at h
    by_cases h1 : p.isAlive = true
    case neg => simp [h1] at h
    by_cases h2 : phase = GamePhase.phase1Actions
    case neg => simp [h1, h2] at h
    by_cases h3 : 10 ≤ p.coins ∧ req.actionType ≠ .coup
    case pos => simp [h1, h2, h3] at h
    by_cases h4 : p.coins < actionCost req.actionType
    case pos => simp [h1, h2, h3, h4] at h
    by_cases h5 : (isTargeted req.actionType && !targetOk st uid req) = true
    case pos => simp [h1, h2, h3, h4, h5] at h
    simp [h1, h2, h3, h4, h5] at h
    subst h
    refine ⟨h2, ?_, ?_⟩
    · have hu := findPlayer_update_self
        (fun q => { q with pending := [req], coins := q.coins - actionCost req.actionType })
        (fun q => rfl) hfind
      simp [pendingOf, applyDeclaration, updatePlayer] at hu ⊢
      simp [hu]
    · intro v hv
      have hu := @findPlayer_update_other st uid v
        (fun q => { q with pending := [req], coins := q.coins - actionCost req.actionType })
        (fun q => rfl) hv
      simp [pendingOf, applyDeclaration, hu]

/-- C6 witness: player 1's successful coup declaration in `demoRich`
leaves player 1 with exactly the new declaration pending and player 2's
pending list unchanged. -/
theorem declaration_overwrites_example :
    pendingOf demoRichAfterCoup 1 = [demoReqCoup] ∧
    pendingOf demoRichAfterCoup 2 = pendingOf demoRich 2 := by
  have h := declaration_overwrites demoRich .phase1Actions 1 demoReqCoup
    demoRichAfterCoup (by rfl)
  exact ⟨h.2.1, h.2.2 2 (by decide)⟩

/-- C3: the Resolution Engine is a deterministic pure function of its
frozen input under the fixed tie-break ordering: any two presentations of
the same frozen reaction row set (in particular, the very same list
twice) resolve to identical final states and byte-identical `TurnResult`
values. -/
theorem resolution_deterministic (st : GameState) (rs₁ rs₂ : List Reaction)
    (h : rs₁.Perm rs₂) : resolveTurn st rs₁ = resolveTurn st rs₂ := by
  have hs : sortReactions rs₁ = sortReactions rs₂ :=
    List.eq_of_perm_of_sorted
      (((List.perm_insertionSort reactionLE rs₁).trans h).trans
        (List.perm_insertionSort reactionLE rs₂).symm)
      (List.sorted_insertionSort reactionLE rs₁)
      (List.sorted_insertionSort reactionLE rs₂)
  unfold resolveTurn
  rw [hs]

/-- C3 witness: the same two frozen reaction rows presented in either
arrival order resolve identically. -/
theorem resolution_deterministic_example :
    resolveTurn demoRich [demoBlockReaction, demoPassReaction] =
      resolveTurn demoRich [demoPassReaction, demoBlockReaction] :=
  resolution_deterministic demoRich
    [demoBlockReaction, demoPassReaction]
    [demoPassReaction, demoBlockReaction]
    (List.Perm.swap demoPassReaction demoBlockReaction [])

theorem targetOk_iff (st : GameState) (uid : Nat) (req : PendingAction) :
    targetOk st uid req = true ↔ goodTarget st uid req := by
  unfold targetOk goodTarget
  cases ht : req.target with
  | none => simp
  | some t =>
    by_cases hc : req.actionType = ActionType.coup ∧ t = uid
    · simp [hc]
    · simp only [hc, if_false]
      cases hf : findPlayer st t with
      | none => simp [hc, hf]
      | some tp =>
        simp only [hf, Option.some.injEq]
        constructor
        · intro ha
          exact ⟨t, rfl, fun hx => hc hx, tp, hf, ha⟩
        · rintro ⟨t', ht', hns, tp', htp', ha'⟩
          cases ht'
          rw [hf] at htp'
          cases htp'
          exact ha'

/-- C4: Action Intake enforces the coin and target preconditions: a Coup
with fewer than 7 coins or an Assassinate with fewer than 3 coins fails
with `InsufficientCoins`; a targeted action without a good target (none
supplied, self-coup, missing or dead target) fails with `InvalidTarget`;
and a declared Coup — unchallengeable and unblockable, whatever reactions
are on the table — costs the actor exactly 7 coins at declaration, with
resolution then removing exactly one card from the target and touching no
further actor coins. -/
theorem action_intake_preconditions :
    (∀ st uid req p, findPlayer st uid = some p → p.isAlive = true →
      req.actionType = ActionType.coup → p.coins < 7 →
      actionIntake st .phase1Actions uid req = .error .insufficientCoins) ∧
    (∀ st uid req p, findPlayer st uid = some p → p.isAlive = true →
      req.actionType = ActionType.assassinate → p.coins < 3 →
      actionIntake st .phase1Actions uid req = .error .insufficientCoins) ∧
    (∀ st uid req p, findPlayer st uid = some p → p.isAlive = true →
      isTargeted req.actionType = true →
      ¬(10 ≤ p.coins ∧ req.actionType ≠ ActionType.coup) →
      actionCost req.actionType ≤ p.coins →
      ¬goodTarget st uid req →
      actionIntake st .phase1Actions uid req = .error .invalidTarget) ∧
    (∀ st uid req p t tp reactions,
      (st.players.map PlayerState.userId).Nodup →
      uid ∈ st.players.map PlayerState.userId →
      (∀ v, v ≠ uid → pendingOf st v = []) →
      findPlayer st uid = some p → p.isAlive = true →
      req.actionType = ActionType.coup → req.target = some t → t ≠ uid →
      findPlayer st t = some tp → tp.isAlive = true →
      7 ≤ p.coins →
      actionIntake st .phase1Actions uid req = .ok (applyDeclaration st uid req) ∧
      coinsOf (applyDeclaration st uid req) uid = p.coins - 7 ∧
      coinsOf (resolveTurn (applyDeclaration st uid req) reactions).1 uid = p.coins - 7 ∧
      cardCountOf (resolveTurn (applyDeclaration st uid req) reactions).1 t =
        tp.cards.length - 1) := by
  refine ⟨?_, ?_, ?_, ?_⟩
  · intro st uid req p hfind halive hcoup hlt
    unfold actionIntake
    rw [hfind]
    simp [halive, hcoup, actionCost, hlt]
  · intro st uid req p hfind halive hass hlt
    have hn : ¬(10 ≤ p.coins) := by omega
    unfold actionIntake
    rw [hfind]
    simp [halive, hass, hn, actionCost, hlt]
  · intro st uid req p hfind halive htarg hforced hcost hng
    have hnlt : ¬(p.coins < actionCost req.actionType) := Nat.not_lt.mpr hcost
    have htok : targetOk st uid req = false := by
      cases h : targetOk st uid req
      · rfl
      · exact absurd ((targetOk_iff st uid req).mp h) hng
    unfold actionIntake
    rw [hfind]
    simp [halive, hforced, hnlt, htarg, htok]
  · intro st uid req p t tp reactions hnd hmem hothers hfind halive hcoup hht htu
      hfindt htpa hc7
    have hcost : ¬(p.coins < actionCost ActionType.coup) := by
      show ¬(p.coins < 7)
      omega
    have htok : targetOk st uid req = true := by
      unfold targetOk
      rw [hht]
      have hns : ¬(req.actionType = ActionType.coup ∧ t = uid) := fun hx => htu hx.2
      simp [hns, hfindt, htpa]
    have hintake : actionIntake st .phase1Actions uid req =
        .ok (applyDeclaration st uid req) := by
      unfold actionIntake
      rw [hfind]
      simp [halive, hcoup, hcost, htok]
    have hfp := findPlayer_update_self
      (fun q => { q with pending := [req], coins := q.coins - actionCost req.actionType })
      (fun _ => rfl) hfind
    have hcoins1 : coinsOf (applyDeclaration st uid req) uid = p.coins - 7 := by
      unfold coinsOf applyDeclaration
      rw [hfp]
      simp [hcoup, actionCost]
    have hids : (applyDeclaration st uid req).players.map PlayerState.userId =
        st.players.map PlayerState.userId := by
      show (updatePlayer st uid fun q =>
        { q with pending := [req], coins := q.coins - actionCost req.actionType }).players.map
          PlayerState.userId = _
      exact mapUserId_update st uid _ (fun _ => rfl)
    have hnd1 : ((applyDeclaration st uid req).players.map PlayerState.userId).Nodup := by
      rw [hids]; exact hnd
    have hmem1 : uid ∈ (applyDeclaration st uid req).players.map PlayerState.userId := by
      rw [hids]; exact hmem
    have hothers1 : ∀ v, v ≠ uid → pendingOf (applyDeclaration st uid req) v = [] := by
      intro v hv
      unfold pendingOf applyDeclaration
      rw [findPlayer_update_other
        (fun q => { q with pending := [req], coins := q.coins - actionCost req.actionType })
        (fun _ => rfl) hv]
      have := hothers v hv
      unfold pendingOf at this
      exact this
    have hfindt1 : findPlayer (applyDeclaration st uid req) t = some tp := by
      unfold applyDeclaration
      rw [findPlayer_update_other
        (fun q => { q with pending := [req], coins := q.coins - actionCost req.actionType })
        (fun _ => rfl) htu]
      exact hfindt
    refine ⟨hintake, hcoins1, ?_⟩
    rw [resolveTurn_single_actor (applyDeclaration st uid req) reactions uid hnd1 hmem1
      hothers1]
    set rsor := sortReactions reactions with hrsor
    set st1 := applyDeclaration st uid req with hst1
    have hbnil : blocksAgainst rsor uid req.actionType = [] := by
      unfold blocksAgainst
      rw [List.filter_eq_nil_iff]
      intro r hr
      simp only [decide_eq_true_eq, not_and]
      intro _ _ _
      rw [hcoup]
      cases r.blockRole <;> simp [blockRoleValid, validBlockRoles]
    have e1 : processAction rsor ⟨st1, [], []⟩ uid =
        processPending rsor ⟨st1, [], []⟩ uid req
          { p with pending := [req], coins := p.coins - actionCost req.actionType } := by
      unfold processAction
      rw [show findPlayer (RState.st ⟨st1, [], []⟩) uid = some
        { p with pending := [req], coins := p.coins - actionCost req.actionType } from hfp]
      simp [halive]
    have e2 : processPending rsor ⟨st1, [], []⟩ uid req
        { p with pending := [req], coins := p.coins - actionCost req.actionType } =
        resolveBlockStage rsor ⟨st1, [], []⟩ uid req := by
      unfold processPending
      rw [hcoup]
      rfl
    have e3 : resolveBlockStage rsor ⟨st1, [], []⟩ uid req =
        applyEffect ⟨st1, [], []⟩ uid req := by
      unfold resolveBlockStage
      rw [hbnil]
      rfl
    have e4 : applyEffect ⟨st1, [], []⟩ uid req = applyCardLoss ⟨st1, [], []⟩ t := by
      unfold applyEffect
      rw [hcoup, hht]
    have hst2 : (applyCardLoss ⟨st1, [], []⟩ t).st =
        updatePlayer st1 t (cardLossUpd tp.cards.tail) := by
      unfold applyCardLoss
      rw [show findPlayer (RState.st ⟨st1, [], []⟩) t = some tp from hfindt1]
      simp [htpa]
    rw [e1, e2, e3, e4]
    constructor
    · simp only [hst2]
      rw [coinsOf_update (cardLossUpd tp.cards.tail) (fun _ => rfl) (fun _ => rfl)]
      exact hcoins1
    · simp only [hst2]
      unfold cardCountOf
      rw [findPlayer_update_self (cardLossUpd tp.cards.tail) (fun _ => rfl) hfindt1]
      simp [cardLossUpd, List.length_tail]

/-- C4 witness (scenario C): with 7 coins, player 1's coup on player 2 is
accepted, costs exactly 7 coins at declaration, and resolution removes
exactly one of player 2's two cards while leaving player 1's coins at
zero; and player 2, with 2 coins, cannot coup. -/
theorem action_intake_preconditions_example :
    actionIntake demoCoupSt .phase1Actions 2 demoReqCoupAt1 =
      .error .insufficientCoins ∧
    actionIntake demoCoupSt .phase1Actions 1 demoReqCoup =
      .ok (applyDeclaration demoCoupSt 1 demoReqCoup) ∧
    coinsOf (applyDeclaration demoCoupSt 1 demoReqCoup) 1 = 0 ∧
    coinsOf (resolveTurn (applyDeclaration demoCoupSt 1 demoReqCoup) []).1 1 = 0 ∧
    cardCountOf (resolveTurn (applyDeclaration demoCoupSt 1 demoReqCoup) []).1 2 = 1 := by
  have hothers : ∀ v, v ≠ 1 → pendingOf demoCoupSt v = [] := by
    intro v hv
    by_cases h2 : v = 2
    · subst h2; rfl
    · have n1 : ((1 : Nat) == v) = false := by
        rw [beq_eq_false_iff_ne]
        exact fun he => hv he.symm
      have n2 : ((2 : Nat) == v) = false := by
        rw [beq_eq_false_iff_ne]
        exact fun he => h2 he.symm
      simp [pendingOf, findPlayer, demoCoupSt, List.find?, n1, n2]
  have h1 := action_intake_preconditions.1 demoCoupSt 2 demoReqCoupAt1
    ⟨2, 2, 0, [.contessa, .duke], true, []⟩ rfl rfl rfl (by decide)
  have h4 := action_intake_preconditions.2.2.2 demoCoupSt 1 demoReqCoup
    ⟨1, 7, 0, [.duke], true, []⟩ 2 ⟨2, 2, 0, [.contessa, .duke], true, []⟩ []
    (by decide) (by decide) hothers rfl rfl rfl rfl (by decide) rfl rfl (by decide)
  exact ⟨h1, h4.1, h4.2.1, h4.2.2.1, h4.2.2.2⟩

/-- C5: when the only pending action has at least one block reaction whose
claimed blocking role is valid for the action type, and no challenge row
concerns the actor (in particular none targets the block), resolution
cancels the action's effect and eliminates nobody: the game state is
returned unchanged.  No hypothesis constrains the blocker's hand, so an
unchallenged bluffed block succeeds regardless of truth. -/
theorem unchallenged_block_cancels (st : GameState) (reactions : List Reaction)
    (a : Nat) (p : PlayerState) (act : PendingAction)
    (hnd : (st.players.map PlayerState.userId).Nodup)
    (hmem : a ∈ st.players.map PlayerState.userId)
    (hothers : ∀ v, v ≠ a → pendingOf st v = [])
    (hfind : findPlayer st a = some p) (halive : p.isAlive = true)
    (hpend : p.pending = [act])
    (hblock : ∃ r ∈ reactions, r.rtype = ReactionType.block ∧ r.actor = a ∧
      r.targetAction = act.actionType ∧ blockRoleValid act.actionType r.blockRole = true)
    (hnochal : ∀ r ∈ reactions, r.actor = a → r.rtype ≠ ReactionType.challenge) :
    (resolveTurn st reactions).1 = st ∧
    (resolveTurn st reactions).2.eliminated = [] := by
  rw [resolveTurn_single_actor st reactions a hnd hmem hothers]
  set rsor := sortReactions reactions with hrsor
  have hsortmem : ∀ r : Reaction, r ∈ rsor → r ∈ reactions := fun r hr =>
    (List.perm_insertionSort reactionLE reactions).mem_iff.mp hr
  have hchalnil : ∀ ty, challengesAgainst rsor a ty = [] := by
    intro ty
    unfold challengesAgainst
    rw [List.filter_eq_nil_iff]
    intro r hr
    simp only [decide_eq_true_eq, not_and]
    intro h1 h2 _ _
    exact absurd h1 (hnochal r (hsortmem r hr) h2)
  have hbchalnil : ∀ blocker, challengesOfBlock rsor a blocker = [] := by
    intro blocker
    unfold challengesOfBlock
    rw [List.filter_eq_nil_iff]
    intro r hr
    simp only [decide_eq_true_eq, not_and]
    intro h1 h2 _
    exact absurd h1 (hnochal r (hsortmem r hr) h2)
  obtain ⟨b, hb⟩ :
      ∃ b, (blocksAgainst rsor a act.actionType).head? = some b := by
    obtain ⟨r, hrmem, h1, h2, h3, h4⟩ := hblock
    have hrin : r ∈ blocksAgainst rsor a act.actionType := by
      unfold blocksAgainst
      rw [List.mem_filter]
      refine ⟨(List.perm_insertionSort reactionLE reactions).mem_iff.mpr hrmem, ?_⟩
      simp [h1, h2, h3, h4]
    cases hh : (blocksAgainst rsor a act.actionType).head? with
    | none =>
      rw [List.head?_eq_none_iff] at hh
      rw [hh] at hrin
      exact absurd hrin (List.not_mem_nil r)
    | some b => exact ⟨b, rfl⟩
  have e1 : processAction rsor ⟨st, [], []⟩ a = processPending rsor ⟨st, [], []⟩ a act p := by
    unfold processAction
    rw [show findPlayer (RState.st ⟨st, [], []⟩) a = some p from hfind]
    simp [halive, hpend]
  have e2 : processPending rsor ⟨st, [], []⟩ a act p =
      resolveBlockStage rsor ⟨st, [], []⟩ a act := by
    unfold processPending
    cases hreq : requiredRole act.actionType with
    | none => rfl
    | some role =>
      have : processWithChallenge rsor ⟨st, [], []⟩ a act p role =
          resolveBlockStage rsor ⟨st, [], []⟩ a act := by
        unfold processWithChallenge
        rw [hchalnil act.actionType]
        rfl
      exact this
  have e3 : resolveBlockStage rsor ⟨st, [], []⟩ a act =
      blockChallengeStage rsor ⟨st, [], []⟩ a act b := by
    unfold resolveBlockStage
    rw [hb]
  have e4 : blockChallengeStage rsor ⟨st, [], []⟩ a act b =
      ⟨st, [Effect.blocked a], []⟩ := by
    unfold blockChallengeStage
    rw [hbchalnil b.reactor]
    rfl
  rw [e1, e2, e3, e4]
  exact ⟨rfl, rfl⟩

/-- C5 witness (scenario D): player 1's assassination of player 2 is
blocked by player 2's Contessa claim — a bluff, player 2 holds only a
Duke — and with no challenges the resolution leaves the state unchanged
and eliminates nobody. -/
theorem unchallenged_block_cancels_example :
    (resolveTurn demoAssassinSt [demoBlockReaction]).1 = demoAssassinSt ∧
    (resolveTurn demoAssassinSt [demoBlockReaction]).2.eliminated = [] := by
  have hothers : ∀ v, v ≠ 1 → pendingOf demoAssassinSt v = [] := by
    intro v hv
    by_cases h2 : v = 2
    · subst h2; rfl
    · have n1 : ((1 : Nat) == v) = false := by
        rw [beq_eq_false_iff_ne]
        exact fun he => hv he.symm
      have n2 : ((2 : Nat) == v) = false := by
        rw [beq_eq_false_iff_ne]
        exact fun he => h2 he.symm
      simp [pendingOf, findPlayer, demoAssassinSt, List.find?, n1, n2]
  exact unchallenged_block_cancels demoAssassinSt [demoBlockReaction] 1
    ⟨1, 0, 0, [.assassin], true, [demoReqAssassin]⟩ demoReqAssassin
    (by decide) (by decide) hothers rfl rfl rfl (by decide) (by decide)

/-- C7: starting from a well-formed state (distinct ids; a player is alive
exactly while holding a card), one full Resolution Engine turn — whatever
the frozen pending actions and reactions are — preserves well-formedness
(card loss strikes only living players, so a count never goes below
zero), records each newly dead player in the turn's eliminated list
exactly once (the list is duplicate-free and holds exactly the players
alive before and dead after), and never increases any card count. -/
theorem elimination_invariant (st : GameState) (reactions : List Reaction)
    (h : stInv st) :
    stInv (resolveTurn st reactions).1 ∧
    (resolveTurn st reactions).2.eliminated.Nodup ∧
    (∀ u, u ∈ (resolveTurn st reactions).2.eliminated ↔
      (aliveIn st u = true ∧ aliveIn (resolveTurn st reactions).1 u = false)) ∧
    (∀ u, cardCountOf (resolveTurn st reactions).1 u ≤ cardCountOf st u) := by
  have hinit : Inv st ⟨st, [], []⟩ := by
    refine ⟨rfl, h, List.nodup_nil, ?_, fun u hu => hu, fun u => le_refl _⟩
    intro u
    constructor
    · intro hx
      exact absurd hx (List.not_mem_nil u)
    · rintro ⟨h1, h2⟩
      have h2' : aliveIn st u = false := h2
      rw [h1] at h2'
      exact Bool.noConfusion h2'
  have hfin := Inv_foldl st (sortReactions reactions)
    (st.players.map PlayerState.userId) ⟨st, [], []⟩ hinit
  exact ⟨hfin.inv, hfin.nodupElim, hfin.elimIff, hfin.cardMono⟩

/-- C7 witness: resolving player 1's unopposed assassination of player 2
(who holds a single card) in the scenario-D state eliminates player 2
exactly once and preserves well-formedness. -/
theorem elimination_invariant_example :
    stInv (resolveTurn demoAssassinSt []).1 ∧
    (resolveTurn demoAssassinSt []).2.eliminated.Nodup ∧
    (2 ∈ (resolveTurn demoAssassinSt []).2.eliminated ↔
      (aliveIn demoAssassinSt 2 = true ∧
        aliveIn (resolveTurn demoAssassinSt []).1 2 = false)) ∧
    cardCountOf (resolveTurn demoAssassinSt []).1 2 ≤ cardCountOf demoAssassinSt 2 := by
  have h := elimination_invariant demoAssassinSt []
    (by exact ⟨by decide, by decide⟩)
  exact ⟨h.1, h.2.1, h.2.2.1 2, h.2.2.2 2⟩

/-- C10: a newly created `player_game_state_table_orm` row whose non-key
columns are not explicitly supplied takes the DDL defaults: coins = 2,
debt = 0, an empty card-type array, and an empty to-be-initiated array;
in particular coins ≥ 0 and debt ≥ 0 hold from the moment a user joins. -/
theorem fresh_player_game_state_defaults (userId : String) (sessionId : Option String) :
    (defaultPlayerGameStateRow userId sessionId).coins = 2 ∧
    (defaultPlayerGameStateRow userId sessionId).debt = 0 ∧
    (defaultPlayerGameStateRow userId sessionId).cardTypes = [] ∧
    (defaultPlayerGameStateRow userId sessionId).toBeInitiated = [] ∧
    0 ≤ (defaultPlayerGameStateRow userId sessionId).coins ∧
    0 ≤ (defaultPlayerGameStateRow userId sessionId).debt := by
  refine ⟨rfl, rfl, rfl, rfl, ?_, ?_⟩ <;> simp [defaultPlayerGameStateRow]

/-- C10 witness: the defaults hold for a concrete fresh row. -/
theorem fresh_player_game_state_defaults_example :
    (defaultPlayerGameStateRow "alice" none).coins = 2 ∧
    (defaultPlayerGameStateRow "alice" none).debt = 0 ∧
    (defaultPlayerGameStateRow "alice" none).cardTypes = [] ∧
    (defaultPlayerGameStateRow "alice" none).toBeInitiated = [] ∧
    0 ≤ (defaultPlayerGameStateRow "alice" none).coins ∧
    0 ≤ (defaultPlayerGameStateRow "alice" none).debt :=
  fresh_player_game_state_defaults "alice" none

end Coup
